import Mathlib

/-!
Shallow embedding of the metric-tracking utilities of `orb_models/utils.py`:
the `ScalarMetricTracker` class and its helpers `ensure_detached` and
`to_item`, plus `init_device`.  Python scalars are modelled as rationals
together with an explicit NaN marker; torch tensors as a list of such values
together with a `requires_grad` flag and a device.  Dictionaries are modelled
as insertion-ordered association lists, matching Python `dict` /
`defaultdict` semantics (updating an existing key keeps its position, a fresh
key is appended at the end, and a `defaultdict` read of a missing key inserts
the default).  The only exception Python arithmetic can raise inside `update`
is a tensor-tensor addition with mismatched devices or non-broadcastable
shapes; this is modelled by the `addRaises` test and a Boolean "raised" flag.
-/

/-- Scalar numeric value of the host language: a rational, or NaN. -/
inductive Val where
  | num (q : ℚ)
  | nan
deriving DecidableEq, Repr, Inhabited

/-- Device a tensor lives on: the host CPU or a CUDA card. -/
inductive Device where
  | cpu
  | cuda (id : Nat)
deriving DecidableEq, Repr, Inhabited

/-- Value of type `base.Metric` as used by the tracker: a plain Python
scalar, or a torch tensor (element list, `requires_grad` flag, device). -/
inductive Metric where
  | scalar (v : Val)
  | tensor (elems : List Val) (requiresGrad : Bool) (device : Device)
deriving DecidableEq, Repr, Inhabited

/-- Addition of scalar values; NaN propagates through addition. -/
def valAdd : Val → Val → Val
  | Val.num a, Val.num b => Val.num (a + b)
  | _, _ => Val.nan

/-- Division of a scalar value by an integer count; NaN propagates. -/
def valDiv : Val → Nat → Val
  | Val.num a, c => Val.num (a / (c : ℚ))
  | Val.nan, _ => Val.nan

/-- Test for the NaN marker. -/
def valIsNan : Val → Bool
  | Val.nan => true
  | Val.num _ => false

/-- Two one-dimensional tensor sizes broadcast iff they are equal or one of
them is 1 (torch broadcasting rule). -/
def broadcastOk (m n : Nat) : Bool :=
  m = n || m = 1 || n = 1

/-- Elementwise tensor addition with broadcasting, defined on sizes that
pass `broadcastOk`. -/
def tensorAdd (es fs : List Val) : List Val :=
  if es.length = fs.length then List.zipWith valAdd es fs
  else if es.length = 1 then fs.map (fun f => valAdd es.headI f)
  else es.map (fun e => valAdd e fs.headI)

/-- Python `+` on metric values: float+float, float+tensor (broadcast),
tensor+float, tensor+tensor.  The result of an operation involving a tensor
is a tensor on that tensor's device; a tensor-tensor sum requires grad iff
either operand does. -/
def addMetric : Metric → Metric → Metric
  | Metric.scalar a, Metric.scalar b => Metric.scalar (valAdd a b)
  | Metric.scalar a, Metric.tensor fs rg d => Metric.tensor (fs.map (fun f => valAdd a f)) rg d
  | Metric.tensor es rg d, Metric.scalar b => Metric.tensor (es.map (fun e => valAdd e b)) rg d
  | Metric.tensor es rg d, Metric.tensor fs rg' _ => Metric.tensor (tensorAdd es fs) (rg || rg') d

/-- Python `+` raises (a `RuntimeError`) exactly when both operands are
tensors living on different devices or with non-broadcastable sizes. -/
def addRaises : Metric → Metric → Bool
  | Metric.tensor es _ d, Metric.tensor fs _ d' => d ≠ d' || !broadcastOk es.length fs.length
  | _, _ => false

/-- Embedding of `ensure_detached` (utils.py lines 55-59): a tensor is
detached from the autograd graph; its device is NOT changed (the function's
docstring claims the result is "on the CPU" but no `.cpu()` call occurs);
a non-tensor is returned unchanged. -/
def ensure_detached : Metric → Metric
  | Metric.tensor es _ d => Metric.tensor es false d
  | m => m

/-- Embedding of `to_item` (utils.py lines 62-66): `x.cpu().item()` for a
tensor — which succeeds iff the tensor has exactly one element and raises
otherwise, modelled by `none` — and the identity on non-tensors. -/
def to_item : Metric → Option Val
  | Metric.scalar v => some v
  | Metric.tensor [e] _ _ => some e
  | Metric.tensor _ _ _ => none

/-- First skip test of `update`: `isinstance(v, torch.Tensor) and
v.nelement() > 1` (only scalar metrics are tracked). -/
def skipNonScalar : Metric → Bool
  | Metric.tensor es _ _ => es.length > 1
  | Metric.scalar _ => false

/-- Second skip test of `update`: `isinstance(v, torch.Tensor) and
v.isnan().any()`. -/
def skipNan : Metric → Bool
  | Metric.tensor es _ _ => es.any valIsNan
  | Metric.scalar _ => false

/-- Boolean test for a plain non-NaN numeric scalar value. -/
def isScalarNum : Metric → Bool
  | Metric.scalar (Val.num _) => true
  | _ => false

/-- Rational content of a plain non-NaN numeric scalar metric. -/
def scalarRat : Metric → Option ℚ
  | Metric.scalar (Val.num q) => some q
  | _ => none

/-- Device of a tensor metric, `none` for a plain scalar. -/
def deviceOf : Metric → Option Device
  | Metric.tensor _ _ d => some d
  | Metric.scalar _ => none

/-- Lookup in an insertion-ordered association list (Python `dict` read). -/
def alistGet {α : Type} : List (String × α) → String → Option α
  | [], _ => none
  | (k', v) :: rest, k => if k' = k then some v else alistGet rest k

/-- Python `defaultdict` read-modify-write `d[k] = f(d[k])`: an existing key
is updated in place, a missing key defaults to `d` and the new entry is
appended at the end. -/
def alistUpdate {α : Type} : List (String × α) → String → (α → α) → α → List (String × α)
  | [], k, f, d => [(k, f d)]
  | (k', v) :: rest, k, f, d =>
    if k' = k then (k', f v) :: rest else (k', v) :: alistUpdate rest k f d

/-- Python `defaultdict` bare read `d[k]`: inserts the default at the end
when the key is missing (this is the only mutation a read performs). -/
def alistEnsure {α : Type} : List (String × α) → String → α → List (String × α)
  | [], k, d => [(k, d)]
  | (k', v) :: rest, k, d =>
    if k' = k then (k', v) :: rest else (k', v) :: alistEnsure rest k d

/-- State of a `ScalarMetricTracker` (utils.py lines 83-106): the two
defaultdicts `sums` (name to running total) and `counts` (name to update
count). -/
structure ScalarMetricTracker where
  sums : List (String × Metric)
  counts : List (String × Nat)
deriving DecidableEq, Repr

/-- Embedding of `ScalarMetricTracker.reset` (and of `__init__`, which just
calls `reset`): both mappings become empty. -/
def ScalarMetricTracker.reset (_st : ScalarMetricTracker) : ScalarMetricTracker :=
  ScalarMetricTracker.mk [] []

/-- Freshly constructed tracker. -/
def trackerInit : ScalarMetricTracker :=
  ScalarMetricTracker.mk [] []

/-- Effect of one non-skipped, non-raising loop iteration of `update`:
`self.sums[k] += ensure_detached(v)` and `self.counts[k] += 1`. -/
def applyEntry (st : ScalarMetricTracker) (k : String) (v : Metric) : ScalarMetricTracker :=
  ScalarMetricTracker.mk
    (alistUpdate st.sums k (fun a => addMetric a (ensure_detached v)) (Metric.scalar (Val.num 0)))
    (alistUpdate st.counts k (fun c => c + 1) 0)

/-- Loop of `ScalarMetricTracker.update` (utils.py lines 94-102) over the
entries of the argument dict, in insertion order.  The Boolean records
whether the iteration raised: the only raising operation is the `+=` on
`sums`, and when it raises the `defaultdict` read has already inserted the
default for a missing key while `counts` is untouched and the remaining
entries are never processed. -/
def ScalarMetricTracker.updateGo : ScalarMetricTracker → List (String × Metric) → ScalarMetricTracker × Bool
  | st, [] => (st, false)
  | st, (k, v) :: rest =>
    if skipNonScalar v then ScalarMetricTracker.updateGo st rest
    else if skipNan v then ScalarMetricTracker.updateGo st rest
    else if addRaises ((alistGet st.sums k).getD (Metric.scalar (Val.num 0))) (ensure_detached v)
    then (ScalarMetricTracker.mk (alistEnsure st.sums k (Metric.scalar (Val.num 0))) st.counts, true)
    else ScalarMetricTracker.updateGo (applyEntry st k v) rest

/-- Embedding of `ScalarMetricTracker.update`. -/
def ScalarMetricTracker.update (st : ScalarMetricTracker) (metrics : List (String × Metric)) : ScalarMetricTracker × Bool :=
  ScalarMetricTracker.updateGo st metrics

/-- Loop of the dict comprehension in `get_metrics`:
`{k: to_item(v) / self.counts[k] for k, v in self.sums.items()}`.  For each
entry, `to_item` may raise (`none`), the `defaultdict` read `self.counts[k]`
inserts a 0 count for a missing key, and the division raises when the count
is 0.  The returned association list is the possibly-mutated `counts`; a
raise aborts the comprehension, keeping mutations already made. -/
def getMetricsGo : List (String × Metric) → List (String × Nat) → Option (List (String × Val)) × List (String × Nat)
  | [], counts => (some [], counts)
  | (k, m) :: rest, counts =>
    match to_item m with
    | none => (none, counts)
    | some v =>
      let counts1 := alistEnsure counts k 0
      let c := (alistGet counts1 k).getD 0
      if c = 0 then (none, counts1)
      else
        match getMetricsGo rest counts1 with
        | (none, cs) => (none, cs)
        | (some out, cs) => (some ((k, valDiv v c) :: out), cs)

/-- Embedding of `ScalarMetricTracker.get_metrics` (utils.py lines 104-106):
the computed mapping (or `none` when the comprehension raises) together with
the tracker state after the call. -/
def ScalarMetricTracker.get_metrics (st : ScalarMetricTracker) : Option (List (String × Val)) × ScalarMetricTracker :=
  match getMetricsGo st.sums st.counts with
  | (res, cs) => (res, ScalarMetricTracker.mk st.sums cs)

/-- Public call of the tracker's interface, for reachability statements. -/
inductive TrackerCall where
  | reset
  | update (metrics : List (String × Metric))
  | getMetrics
deriving DecidableEq, Repr

/-- State transition of one call (the raised flag and the returned mapping
are dropped; only the state matters for reachability). -/
def trackerStep (st : ScalarMetricTracker) : TrackerCall → ScalarMetricTracker
  | TrackerCall.reset => st.reset
  | TrackerCall.update m => (st.update m).1
  | TrackerCall.getMetrics => st.get_metrics.2

/-- State reached from a fresh tracker by a sequence of calls. -/
def trackerRun (calls : List TrackerCall) : ScalarMetricTracker :=
  calls.foldl trackerStep trackerInit

/-- State reached from a fresh tracker by a sequence of `update` calls. -/
def trackerRunUpdates (batches : List (List (String × Metric))) : ScalarMetricTracker :=
  batches.foldl (fun st b => (st.update b).1) trackerInit

/-- Rational values supplied for key `k` among a list of update entries
(restricted to plain numeric scalar values). -/
def scalarValuesFor (k : String) (entries : List (String × Metric)) : List ℚ :=
  entries.filterMap (fun kv => if kv.1 = k then scalarRat kv.2 else none)

/-- Fold of the per-entry effect of `update` over a list of entries, the
shape every `update` call takes when no entry is skipped and none raises. -/
def runEntries (st : ScalarMetricTracker) (entries : List (String × Metric)) : ScalarMetricTracker :=
  entries.foldl (fun s kv => applyEntry s kv.1 kv.2) st

/-- Effect of accumulating one plain scalar value `q` on the optional sum
stored for a key (`none` models an absent key, defaulting to `0.0`). -/
def sumStep (o : Option Metric) (q : ℚ) : Option Metric :=
  some (addMetric (o.getD (Metric.scalar (Val.num 0))) (Metric.scalar (Val.num q)))

/-- Effect of one count increment on the optional count stored for a key. -/
def countStep (o : Option Nat) : Option Nat :=
  some (o.getD 0 + 1)

/-- Invariant of the tracker state: every key present in `sums` is present
in `counts` with a non-zero count. -/
def trackerInv (st : ScalarMetricTracker) : Prop :=
  ∀ k, (alistGet st.sums k).isSome → ∃ c, alistGet st.counts k = some c ∧ c ≠ 0

/-- Boolean test for a plain (non-tensor) scalar value, NaN included. -/
def isPlainScalar : Metric → Bool
  | Metric.scalar _ => true
  | _ => false

/-- Boolean test that an optional stored sum is either absent or a plain
scalar (the shape `sums[k]` has when only plain scalars were accumulated). -/
def sumSlotPlain : Option Metric → Bool
  | none => true
  | some (Metric.scalar _) => true
  | _ => false

/-- Python truthiness test `not device_id` for an optional integer: true for
`None` and for `0`. -/
def pyFalsy : Option Nat → Bool
  | none => true
  | some n => n = 0

/-- Embedding of `init_device` (utils.py lines 17-31): a falsy `device_id`
(`None` or `0`) is replaced by `0`; with CUDA available the result is
`cuda:{device_id}` (the `set_device` / `empty_cache` side effects are not
modelled), otherwise the CPU device. -/
def init_device (cuda_available : Bool) (device_id : Option Nat) : Device :=
  let d := if pyFalsy device_id then some 0 else device_id
  if cuda_available then Device.cuda (d.getD 0) else Device.cpu

example : (trackerRunUpdates [[("loss", Metric.scalar (Val.num 2))], [("loss", Metric.scalar (Val.num 4))]]).sums
    = [("loss", Metric.scalar (Val.num 6))] := by
  norm_num [trackerRunUpdates, trackerInit, ScalarMetricTracker.update, ScalarMetricTracker.updateGo,
    applyEntry, alistUpdate, alistGet, addMetric, valAdd, ensure_detached, skipNonScalar, skipNan,
    addRaises]

example : (trackerRunUpdates [[("loss", Metric.scalar (Val.num 2))], [("loss", Metric.scalar (Val.num 4))]]).get_metrics.1
    = some [("loss", Val.num 3)] := by
  norm_num [trackerRunUpdates, trackerInit, ScalarMetricTracker.update, ScalarMetricTracker.updateGo,
    applyEntry, alistUpdate, alistGet, alistEnsure, addMetric, valAdd, valDiv, ensure_detached,
    skipNonScalar, skipNan, addRaises, ScalarMetricTracker.get_metrics, getMetricsGo, to_item]

example : (trackerRunUpdates [[("loss", Metric.scalar Val.nan)]]).get_metrics.1
    = some [("loss", Val.nan)] := by decide

example : (trackerRunUpdates [[("a", Metric.tensor [] false Device.cpu)]]).get_metrics.1
    = none := by decide

/-! Basic lemmas about the association-list operations. -/

theorem alistGet_update_self {α : Type} (l : List (String × α)) (k : String) (f : α → α) (d : α) :
    alistGet (alistUpdate l k f d) k = some (f ((alistGet l k).getD d)) := by
  induction l with
  | nil => simp [alistGet, alistUpdate]
  | cons hd tl ih =>
    obtain ⟨k', v⟩ := hd
    by_cases h : k' = k
    · simp [alistGet, alistUpdate, h]
    · simp [alistGet, alistUpdate, h, ih]

theorem alistGet_update_ne {α : Type} (l : List (String × α)) {k' k : String} (f : α → α) (d : α)
    (h : k' ≠ k) : alistGet (alistUpdate l k' f d) k = alistGet l k := by
  induction l with
  | nil => simp [alistGet, alistUpdate, h]
  | cons hd tl ih =>
    obtain ⟨k0, v⟩ := hd
    by_cases h0 : k0 = k'
    · subst h0
      simp [alistGet, alistUpdate, h]
    · simp [alistGet, alistUpdate, h0, ih]

theorem alistGet_ensure_ne {α : Type} (l : List (String × α)) {k' k : String} (d : α)
    (h : k' ≠ k) : alistGet (alistEnsure l k' d) k = alistGet l k := by
  induction l with
  | nil => simp [alistGet, alistEnsure, h]
  | cons hd tl ih =>
    obtain ⟨k0, v⟩ := hd
    by_cases h0 : k0 = k'
    · subst h0
      simp [alistGet, alistEnsure, h]
    · simp [alistGet, alistEnsure, h0, ih]

theorem alistEnsure_of_isSome {α : Type} {l : List (String × α)} {k : String} (d : α)
    (h : (alistGet l k).isSome) : alistEnsure l k d = l := by
  induction l with
  | nil => simp [alistGet] at h
  | cons hd tl ih =>
    obtain ⟨k0, v⟩ := hd
    by_cases h0 : k0 = k
    · simp [alistEnsure, h0]
    · simp only [alistGet, h0, if_false] at h
      simp [alistEnsure, h0, ih h]

theorem alistGet_isSome_of_mem {α : Type} {l : List (String × α)} {kv : String × α}
    (h : kv ∈ l) : (alistGet l kv.1).isSome := by
  induction l with
  | nil => simp at h
  | cons hd tl ih =>
    obtain ⟨k0, v0⟩ := hd
    by_cases h0 : k0 = kv.1
    · simp [alistGet, h0]
    · rcases List.mem_cons.mp h with he | ht
      · exfalso
        apply h0
        rw [he]
      · simp [alistGet, h0, ih ht]

theorem mem_of_alistGet_eq_some {α : Type} {l : List (String × α)} {k : String} {v : α}
    (h : alistGet l k = some v) : (k, v) ∈ l := by
  induction l with
  | nil => simp [alistGet] at h
  | cons hd tl ih =>
    obtain ⟨k0, v0⟩ := hd
    by_cases h0 : k0 = k
    · subst h0
      simp [alistGet] at h
      subst h
      exact List.mem_cons_self _ _
    · simp only [alistGet, h0, if_false] at h
      exact List.mem_cons_of_mem _ (ih h)

theorem mem_alistUpdate {α : Type} {l : List (String × α)} {k : String} {f : α → α} {d : α}
    {kv : String × α} (h : kv ∈ alistUpdate l k f d) :
    kv ∈ l ∨ ∃ w, kv = (k, f w) ∧ (w = d ∨ (k, w) ∈ l) := by
  induction l with
  | nil =>
    simp [alistUpdate] at h
    exact Or.inr ⟨d, by simp [h], Or.inl rfl⟩
  | cons hd tl ih =>
    obtain ⟨k0, v0⟩ := hd
    by_cases h0 : k0 = k
    · subst h0
      simp only [alistUpdate, if_pos rfl] at h
      rcases List.mem_cons.mp h with he | ht
      · exact Or.inr ⟨v0, he, Or.inr (List.mem_cons_self _ _)⟩
      · exact Or.inl (List.mem_cons_of_mem _ ht)
    · simp only [alistUpdate, h0, if_false] at h
      rcases List.mem_cons.mp h with he | ht
      · exact Or.inl (he ▸ List.mem_cons_self _ _)
      · rcases ih ht with hl | ⟨w, hw, hws⟩
        · exact Or.inl (List.mem_cons_of_mem _ hl)
        · exact Or.inr ⟨w, hw, hws.imp id (fun m => List.mem_cons_of_mem _ m)⟩

/-! Computation lemmas for the metric operations. -/

theorem addRaises_scalar_right (m : Metric) (b : Val) :
    addRaises m (Metric.scalar b) = false := by
  cases m <;> rfl

theorem addRaises_scalar_left (a : Val) (m : Metric) :
    addRaises (Metric.scalar a) m = false := by
  cases m <;> rfl

theorem addMetric_scalar_empty_tensor (a : Val) (rg : Bool) (d : Device) :
    addMetric (Metric.scalar a) (Metric.tensor [] rg d) = Metric.tensor [] rg d := rfl

theorem isScalarNum_shape {v : Metric} (h : isScalarNum v = true) :
    ∃ q : ℚ, v = Metric.scalar (Val.num q) := by
  cases v with
  | scalar w =>
    cases w with
    | num q => exact ⟨q, rfl⟩
    | nan => simp [isScalarNum] at h
  | tensor es rg d => simp [isScalarNum] at h

theorem updateGo_scalar (entries : List (String × Metric)) :
    ∀ st : ScalarMetricTracker, (∀ kv ∈ entries, isScalarNum kv.2 = true) →
    ScalarMetricTracker.updateGo st entries = (runEntries st entries, false) := by
  induction entries with
  | nil => intro st _; rfl
  | cons hd tl ih =>
    intro st h
    obtain ⟨k, v⟩ := hd
    obtain ⟨q, rfl⟩ := isScalarNum_shape (h (k, v) (List.mem_cons_self _ _))
    rw [ScalarMetricTracker.updateGo]
    simp only [skipNonScalar, skipNan, ensure_detached, addRaises_scalar_right,
      Bool.false_eq_true, if_false]
    rw [ih _ (fun kv hkv => h kv (List.mem_cons_of_mem _ hkv))]
    rfl

theorem runEntries_append (st : ScalarMetricTracker) (l1 l2 : List (String × Metric)) :
    runEntries st (l1 ++ l2) = runEntries (runEntries st l1) l2 := by
  simp [runEntries, List.foldl_append]

theorem trackerRunUpdates_scalar (batches : List (List (String × Metric)))
    (h : ∀ b ∈ batches, ∀ kv ∈ b, isScalarNum kv.2 = true) :
    trackerRunUpdates batches = runEntries trackerInit batches.flatten := by
  suffices hg : ∀ st : ScalarMetricTracker,
      batches.foldl (fun s b => (s.update b).1) st = runEntries st batches.flatten from
    hg trackerInit
  induction batches with
  | nil => intro st; rfl
  | cons b bs ih =>
    intro st
    rw [List.foldl_cons, List.flatten_cons, runEntries_append]
    rw [show (st.update b).1 = runEntries st b by
      rw [ScalarMetricTracker.update, updateGo_scalar b st (h b (List.mem_cons_self _ _))]]
    exact ih (fun b' hb' => h b' (List.mem_cons_of_mem _ hb')) _

theorem runEntries_sums_get (entries : List (String × Metric)) :
    ∀ (st : ScalarMetricTracker) (k : String),
    (∀ kv ∈ entries, isScalarNum kv.2 = true) →
    alistGet (runEntries st entries).sums k
      = (scalarValuesFor k entries).foldl sumStep (alistGet st.sums k) := by
  induction entries with
  | nil => intro st k _; rfl
  | cons hd tl ih =>
    intro st k h
    obtain ⟨k0, v⟩ := hd
    obtain ⟨q, rfl⟩ := isScalarNum_shape (h (k0, v) (List.mem_cons_self _ _))
    have hrest := fun kv hkv => h kv (List.mem_cons_of_mem _ hkv)
    show alistGet (runEntries (applyEntry st k0 _) tl).sums k = _
    rw [ih _ k hrest]
    by_cases h0 : k0 = k
    · subst h0
      have hvals : scalarValuesFor k0 ((k0, Metric.scalar (Val.num q)) :: tl)
          = q :: scalarValuesFor k0 tl := by
        simp [scalarValuesFor, scalarRat]
      rw [hvals, List.foldl_cons]
      congr 1
      show alistGet (alistUpdate st.sums k0 _ _) k0 = _
      rw [alistGet_update_self]
      rfl
    · have hvals : scalarValuesFor k ((k0, Metric.scalar (Val.num q)) :: tl)
          = scalarValuesFor k tl := by
        simp [scalarValuesFor, h0]
      rw [hvals]
      congr 1
      exact alistGet_update_ne st.sums _ _ h0

theorem runEntries_counts_get (entries : List (String × Metric)) :
    ∀ (st : ScalarMetricTracker) (k : String),
    (∀ kv ∈ entries, isScalarNum kv.2 = true) →
    alistGet (runEntries st entries).counts k
      = (scalarValuesFor k entries).foldl (fun o _ => countStep o) (alistGet st.counts k) := by
  induction entries with
  | nil => intro st k _; rfl
  | cons hd tl ih =>
    intro st k h
    obtain ⟨k0, v⟩ := hd
    obtain ⟨q, rfl⟩ := isScalarNum_shape (h (k0, v) (List.mem_cons_self _ _))
    have hrest := fun kv hkv => h kv (List.mem_cons_of_mem _ hkv)
    show alistGet (runEntries (applyEntry st k0 _) tl).counts k = _
    rw [ih _ k hrest]
    by_cases h0 : k0 = k
    · subst h0
      have hvals : scalarValuesFor k0 ((k0, Metric.scalar (Val.num q)) :: tl)
          = q :: scalarValuesFor k0 tl := by
        simp [scalarValuesFor, scalarRat]
      rw [hvals, List.foldl_cons]
      congr 1
      show alistGet (alistUpdate st.counts k0 _ _) k0 = _
      rw [alistGet_update_self]
      rfl
    · have hvals : scalarValuesFor k ((k0, Metric.scalar (Val.num q)) :: tl)
          = scalarValuesFor k tl := by
        simp [scalarValuesFor, h0]
      rw [hvals]
      congr 1
      exact alistGet_update_ne st.counts _ _ h0

theorem foldl_sumStep_num (vs : List ℚ) :
    ∀ a : ℚ, vs.foldl sumStep (some (Metric.scalar (Val.num a)))
      = some (Metric.scalar (Val.num (a + vs.sum))) := by
  induction vs with
  | nil => intro a; simp
  | cons v tl ih =>
    intro a
    rw [List.foldl_cons]
    rw [show sumStep (some (Metric.scalar (Val.num a))) v
        = some (Metric.scalar (Val.num (a + v))) from rfl]
    rw [ih (a + v), List.sum_cons]
    ring_nf

theorem foldl_sumStep_of_ne_nil (vs : List ℚ) (h : vs ≠ []) :
    vs.foldl sumStep none = some (Metric.scalar (Val.num vs.sum)) := by
  cases vs with
  | nil => cases h rfl
  | cons v tl =>
    rw [List.foldl_cons]
    rw [show sumStep none v = some (Metric.scalar (Val.num (0 + v))) from rfl]
    rw [foldl_sumStep_num, List.sum_cons]
    ring_nf

theorem foldl_countStep_some (vs : List ℚ) :
    ∀ c : Nat, vs.foldl (fun o _ => countStep o) (some c) = some (c + vs.length) := by
  induction vs with
  | nil => intro c; simp
  | cons v tl ih =>
    intro c
    rw [List.foldl_cons]
    rw [show countStep (some c) = some (c + 1) from rfl]
    rw [ih (c + 1)]
    simp [Nat.add_assoc, Nat.add_comm 1 tl.length]

theorem foldl_countStep_of_ne_nil (vs : List ℚ) (h : vs ≠ []) :
    vs.foldl (fun o _ => countStep o) none = some vs.length := by
  cases vs with
  | nil => cases h rfl
  | cons v tl =>
    rw [List.foldl_cons]
    rw [show countStep none = some 1 from rfl]
    rw [foldl_countStep_some]
    simp [Nat.add_comm 1 tl.length]

/-! Invariant of the tracker state and lemmas about `get_metrics`. -/

theorem trackerInv_init : trackerInv trackerInit := by
  intro k h
  simp [trackerInit, alistGet] at h

theorem trackerInv_applyEntry {st : ScalarMetricTracker} (k : String) (v : Metric)
    (h : trackerInv st) : trackerInv (applyEntry st k v) := by
  intro k' h'
  by_cases hk : k = k'
  · subst hk
    refine ⟨(alistGet st.counts k).getD 0 + 1, ?_, Nat.succ_ne_zero _⟩
    exact alistGet_update_self st.counts k _ 0
  · rw [show alistGet (applyEntry st k v).sums k' = alistGet st.sums k' from
      alistGet_update_ne st.sums _ _ hk] at h'
    obtain ⟨c, hc, hc0⟩ := h k' h'
    refine ⟨c, ?_, hc0⟩
    rw [show alistGet (applyEntry st k v).counts k' = alistGet st.counts k' from
      alistGet_update_ne st.counts _ _ hk]
    exact hc

theorem trackerInv_updateGo (entries : List (String × Metric)) :
    ∀ st : ScalarMetricTracker, trackerInv st →
    trackerInv (ScalarMetricTracker.updateGo st entries).1 := by
  induction entries with
  | nil => intro st h; exact h
  | cons hd tl ih =>
    intro st h
    obtain ⟨k, v⟩ := hd
    rw [ScalarMetricTracker.updateGo]
    cases hs1 : skipNonScalar v with
    | true => simp only [hs1, if_true]; exact ih st h
    | false =>
    cases hs2 : skipNan v with
    | true => simp only [hs1, hs2, Bool.false_eq_true, if_false, if_true]; exact ih st h
    | false =>
    cases hr : addRaises ((alistGet st.sums k).getD (Metric.scalar (Val.num 0))) (ensure_detached v) with
    | false =>
      simp only [hs1, hs2, hr, Bool.false_eq_true, if_false]
      exact ih _ (trackerInv_applyEntry k v h)
    | true =>
      simp only [hs1, hs2, hr, Bool.false_eq_true, if_false, if_true]
      have hsome : (alistGet st.sums k).isSome := by
        cases hget : alistGet st.sums k with
        | none =>
          rw [hget] at hr
          rw [show (none : Option Metric).getD (Metric.scalar (Val.num 0))
              = Metric.scalar (Val.num 0) from rfl] at hr
          rw [addRaises_scalar_left] at hr
          cases hr
        | some m => rfl
      rw [alistEnsure_of_isSome _ hsome]
      intro k' hk'
      exact h k' hk'

theorem getMetricsGo_counts_eq (sums : List (String × Metric)) :
    ∀ counts : List (String × Nat), (∀ kv ∈ sums, (alistGet counts kv.1).isSome) →
    (getMetricsGo sums counts).2 = counts := by
  induction sums with
  | nil => intro counts _; rfl
  | cons hd tl ih =>
    intro counts h
    obtain ⟨k, m⟩ := hd
    rw [getMetricsGo]
    cases hti : to_item m with
    | none => rfl
    | some v =>
      have hens : alistEnsure counts k 0 = counts :=
        alistEnsure_of_isSome _ (h (k, m) (List.mem_cons_self _ _))
      simp only [hens]
      by_cases hc : (alistGet counts k).getD 0 = 0
      · simp [hc]
      · have htl := ih counts (fun kv hkv => h kv (List.mem_cons_of_mem _ hkv))
        simp only [hc, if_false]
        cases hgm : getMetricsGo tl counts with
        | mk res cs =>
          rw [hgm] at htl
          cases res <;> simpa using htl

theorem getMetricsGo_fst_none_of_mem (sums : List (String × Metric)) :
    ∀ counts : List (String × Nat), (∃ kv ∈ sums, to_item kv.2 = none) →
    (getMetricsGo sums counts).1 = none := by
  induction sums with
  | nil =>
    intro counts h
    obtain ⟨kv, hkv, _⟩ := h
    simp at hkv
  | cons hd tl ih =>
    intro counts h
    obtain ⟨k, m⟩ := hd
    rw [getMetricsGo]
    cases hti : to_item m with
    | none => rfl
    | some v =>
      obtain ⟨kv, hkv, hnone⟩ := h
      rcases List.mem_cons.mp hkv with he | ht
      · exfalso
        rw [he, hti] at hnone
        cases hnone
      · by_cases hc : (alistGet (alistEnsure counts k 0) k).getD 0 = 0
        · simp [hc]
        · have htl := ih (alistEnsure counts k 0) ⟨kv, ht, hnone⟩
          simp only [hc, if_false]
          cases hgm : getMetricsGo tl (alistEnsure counts k 0) with
          | mk res cs =>
            rw [hgm] at htl
            cases res with
            | none => rfl
            | some out => cases htl

theorem getMetricsGo_success (sums : List (String × Metric)) :
    ∀ counts : List (String × Nat),
    (∀ kv ∈ sums, (to_item kv.2).isSome) →
    (∀ kv ∈ sums, (alistGet counts kv.1).getD 0 ≠ 0) →
    ∃ out, getMetricsGo sums counts = (some out, counts) ∧
      ∀ k, alistGet out k
        = (alistGet sums k).map
            (fun m => valDiv ((to_item m).getD Val.nan) ((alistGet counts k).getD 0)) := by
  induction sums with
  | nil =>
    intro counts _ _
    exact ⟨[], rfl, fun k => rfl⟩
  | cons hd tl ih =>
    intro counts h1 h2
    obtain ⟨k0, m⟩ := hd
    have hksome : (alistGet counts k0).isSome := by
      cases hg : alistGet counts k0 with
      | none =>
        exfalso
        apply h2 (k0, m) (List.mem_cons_self _ _)
        rw [hg]
        rfl
      | some c => rfl
    have hens : alistEnsure counts k0 0 = counts := alistEnsure_of_isSome _ hksome
    cases hti : to_item m with
    | none =>
      exfalso
      have := h1 (k0, m) (List.mem_cons_self _ _)
      rw [hti] at this
      cases this
    | some v =>
      obtain ⟨out, hout, hlook⟩ := ih counts
        (fun kv hkv => h1 kv (List.mem_cons_of_mem _ hkv))
        (fun kv hkv => h2 kv (List.mem_cons_of_mem _ hkv))
      have hc0 : (alistGet counts k0).getD 0 ≠ 0 := h2 (k0, m) (List.mem_cons_self _ _)
      refine ⟨(k0, valDiv v ((alistGet counts k0).getD 0)) :: out, ?_, ?_⟩
      · rw [getMetricsGo, hti]
        simp only [hens, hc0, if_false, hout]
      · intro k
        by_cases hk : k0 = k
        · subst hk
          rw [show alistGet ((k0, valDiv v ((alistGet counts k0).getD 0)) :: out) k0
              = some (valDiv v ((alistGet counts k0).getD 0)) by simp [alistGet]]
          rw [show alistGet ((k0, m) :: tl) k0 = some m by simp [alistGet]]
          rw [Option.map_some', hti]
          rfl
        · rw [show alistGet ((k0, valDiv v ((alistGet counts k0).getD 0)) :: out) k
              = alistGet out k by simp [alistGet, hk]]
          rw [show alistGet ((k0, m) :: tl) k = alistGet tl k by simp [alistGet, hk]]
          exact hlook k

theorem get_metrics_state_eq {st : ScalarMetricTracker} (h : trackerInv st) :
    st.get_metrics.2 = st := by
  have hc : ∀ kv ∈ st.sums, (alistGet st.counts kv.1).isSome := by
    intro kv hkv
    obtain ⟨c, hcc, _⟩ := h kv.1 (alistGet_isSome_of_mem hkv)
    rw [hcc]
    rfl
  rw [ScalarMetricTracker.get_metrics]
  cases hgm : getMetricsGo st.sums st.counts with
  | mk res cs =>
    have := getMetricsGo_counts_eq st.sums st.counts hc
    rw [hgm] at this
    simp only at this ⊢
    rw [this]

theorem trackerInv_step {st : ScalarMetricTracker} (c : TrackerCall) (h : trackerInv st) :
    trackerInv (trackerStep st c) := by
  cases c with
  | reset =>
    intro k hk
    simp [trackerStep, ScalarMetricTracker.reset, alistGet] at hk
  | update m => exact trackerInv_updateGo m st h
  | getMetrics =>
    rw [show trackerStep st TrackerCall.getMetrics = st.get_metrics.2 from rfl,
      get_metrics_state_eq h]
    exact h

theorem trackerInv_run (calls : List TrackerCall) : trackerInv (trackerRun calls) := by
  suffices hg : ∀ st : ScalarMetricTracker, trackerInv st →
      trackerInv (calls.foldl trackerStep st) from hg trackerInit trackerInv_init
  induction calls with
  | nil => intro st h; exact h
  | cons c tl ih => intro st h; exact ih _ (trackerInv_step c h)

theorem trackerInv_runEntries (entries : List (String × Metric)) :
    ∀ st : ScalarMetricTracker, trackerInv st → trackerInv (runEntries st entries) := by
  induction entries with
  | nil => intro st h; exact h
  | cons hd tl ih => intro st h; exact ih _ (trackerInv_applyEntry hd.1 hd.2 h)

theorem runEntries_sums_scalar (entries : List (String × Metric))
    (hent : ∀ kv ∈ entries, isScalarNum kv.2 = true) :
    ∀ st : ScalarMetricTracker, (∀ kv ∈ st.sums, isScalarNum kv.2 = true) →
    ∀ kv ∈ (runEntries st entries).sums, isScalarNum kv.2 = true := by
  induction entries with
  | nil => intro st h; exact h
  | cons hd tl ih =>
    intro st h
    obtain ⟨k0, v⟩ := hd
    obtain ⟨q, rfl⟩ := isScalarNum_shape (hent (k0, v) (List.mem_cons_self _ _))
    apply ih (fun kv hkv => hent kv (List.mem_cons_of_mem _ hkv))
    intro kv hkv
    rcases mem_alistUpdate hkv with hold | ⟨w, hw, hws⟩
    · exact h kv hold
    · have hwnum : isScalarNum w = true := by
        rcases hws with rfl | hmem
        · rfl
        · exact h (k0, w) hmem
      obtain ⟨a, rfl⟩ := isScalarNum_shape hwnum
      rw [hw]
      rfl

/-! Claim theorems. -/

/-- Claim C1, counterexample: the per-key hypothesis of the claim is
satisfied for key `loss` (its only supplied value is the plain scalar `2`),
yet `get_metrics()` raises — because the same call supplied a zero-element
tensor for another key `x`, whose accumulated sum cannot be converted to a
scalar — so `get_metrics()[k]` does not equal anything. -/
theorem claim1_counterexample :
    (∀ kv ∈ [("loss", Metric.scalar (Val.num 2)), ("x", Metric.tensor [] false Device.cpu)],
        kv.1 = "loss" → isScalarNum kv.2 = true) ∧
    (trackerRunUpdates [[("loss", Metric.scalar (Val.num 2)),
        ("x", Metric.tensor [] false Device.cpu)]]).get_metrics.1 = none :=
  ⟨by decide, by decide⟩

/-- Claim C1, amended: for every sequence of `update` calls in which every
supplied value — for every key, not only `k` — is a plain non-NaN numeric
scalar, and at least one value is supplied for key `k`, `get_metrics()`
succeeds and its entry at `k` is the arithmetic mean (sum divided by count)
of every value supplied for `k` since the last reset, as a plain scalar. -/
theorem claim1_mean_of_scalar_updates (batches : List (List (String × Metric))) (k : String)
    (hall : ∀ b ∈ batches, ∀ kv ∈ b, isScalarNum kv.2 = true)
    (hk : scalarValuesFor k batches.flatten ≠ []) :
    ∃ out, (trackerRunUpdates batches).get_metrics.1 = some out ∧
      alistGet out k = some (Val.num ((scalarValuesFor k batches.flatten).sum
        / ((scalarValuesFor k batches.flatten).length : ℚ))) := by
  have hent : ∀ kv ∈ batches.flatten, isScalarNum kv.2 = true := by
    intro kv hkv
    obtain ⟨b, hb, hkvb⟩ := List.mem_flatten.mp hkv
    exact hall b hb kv hkvb
  rw [trackerRunUpdates_scalar batches hall]
  have hsum : alistGet (runEntries trackerInit batches.flatten).sums k
      = some (Metric.scalar (Val.num (scalarValuesFor k batches.flatten).sum)) := by
    rw [runEntries_sums_get _ _ _ hent]
    rw [show alistGet trackerInit.sums k = none from rfl]
    exact foldl_sumStep_of_ne_nil _ hk
  have hcount : alistGet (runEntries trackerInit batches.flatten).counts k
      = some (scalarValuesFor k batches.flatten).length := by
    rw [runEntries_counts_get _ _ _ hent]
    rw [show alistGet trackerInit.counts k = none from rfl]
    exact foldl_countStep_of_ne_nil _ hk
  have hscal : ∀ kv ∈ (runEntries trackerInit batches.flatten).sums, isScalarNum kv.2 = true := by
    apply runEntries_sums_scalar _ hent trackerInit
    intro kv hkv
    simp [trackerInit] at hkv
  have h1 : ∀ kv ∈ (runEntries trackerInit batches.flatten).sums, (to_item kv.2).isSome := by
    intro kv hkv
    obtain ⟨q, hq⟩ := isScalarNum_shape (hscal kv hkv)
    rw [hq]
    rfl
  have hinv : trackerInv (runEntries trackerInit batches.flatten) :=
    trackerInv_runEntries _ trackerInit trackerInv_init
  have h2 : ∀ kv ∈ (runEntries trackerInit batches.flatten).sums,
      (alistGet (runEntries trackerInit batches.flatten).counts kv.1).getD 0 ≠ 0 := by
    intro kv hkv
    obtain ⟨c, hc, hc0⟩ := hinv kv.1 (alistGet_isSome_of_mem hkv)
    rw [hc]
    exact hc0
  obtain ⟨out, hout, hlook⟩ := getMetricsGo_success _ _ h1 h2
  refine ⟨out, ?_, ?_⟩
  · rw [ScalarMetricTracker.get_metrics, hout]
  · rw [hlook k, hsum, hcount]
    rfl

/-- Claim C1, witness: the spec scenario `update({"loss": 2.0})`;
`update({"loss": 4.0})` makes `get_metrics()` yield `loss = 3.0`. -/
theorem claim1_witness :
    ∃ out, (trackerRunUpdates [[("loss", Metric.scalar (Val.num 2))],
        [("loss", Metric.scalar (Val.num 4))]]).get_metrics.1 = some out ∧
      alistGet out "loss" = some (Val.num 3) := by
  obtain ⟨out, h1, h2⟩ := claim1_mean_of_scalar_updates
    [[("loss", Metric.scalar (Val.num 2))], [("loss", Metric.scalar (Val.num 4))]] "loss"
    (by decide) (by decide)
  refine ⟨out, h1, ?_⟩
  rw [h2]
  have hval : scalarValuesFor "loss"
      ([[("loss", Metric.scalar (Val.num 2))], [("loss", Metric.scalar (Val.num 4))]].flatten)
      = [2, 4] := by
    simp [scalarValuesFor, scalarRat]
  rw [hval]
  norm_num

/-- Claim C2, counterexample: on a freshly reset tracker,
`update({"loss": float("nan")})` followed by `get_metrics()` does NOT yield
the empty mapping — the scalar-NaN value is not a tensor, so neither skip
test of `update` fires. -/
theorem claim2_counterexample :
    (trackerRunUpdates [[("loss", Metric.scalar Val.nan)]]).get_metrics.1 ≠ some [] := by
  decide

/-- Claim C2, amended: a plain (non-tensor) scalar NaN is NOT skipped: on a
freshly reset tracker, `update({"loss": float("nan")})` accumulates the NaN
and increments the count, and `get_metrics()` yields `{"loss": nan}` — the
NaN-skip policy applies only to tensor values. -/
theorem claim2_scalar_nan_tracked :
    (trackerRunUpdates [[("loss", Metric.scalar Val.nan)]]).get_metrics.1
      = some [("loss", Val.nan)] ∧
    alistGet (trackerRunUpdates [[("loss", Metric.scalar Val.nan)]]).counts "loss" = some 1 :=
  ⟨by decide, by decide⟩

/-- Claim C3: for every update call and every key `k` all of whose supplied
values are tensors with more than one element or tensors containing a NaN,
the call leaves `sums[k]` and `counts[k]` exactly as they were (in
particular, an absent key stays absent). -/
theorem claim3_skipped_entries_frame (st : ScalarMetricTracker)
    (batch : List (String × Metric)) (k : String)
    (h : ∀ kv ∈ batch, kv.1 = k → (skipNonScalar kv.2 || skipNan kv.2) = true) :
    alistGet (st.update batch).1.sums k = alistGet st.sums k ∧
    alistGet (st.update batch).1.counts k = alistGet st.counts k := by
  induction batch generalizing st with
  | nil => exact ⟨rfl, rfl⟩
  | cons hd tl ih =>
    obtain ⟨k0, v⟩ := hd
    have hrest : ∀ kv ∈ tl, kv.1 = k → (skipNonScalar kv.2 || skipNan kv.2) = true :=
      fun kv hkv => h kv (List.mem_cons_of_mem _ hkv)
    show alistGet (ScalarMetricTracker.updateGo st ((k0, v) :: tl)).1.sums k = _ ∧
      alistGet (ScalarMetricTracker.updateGo st ((k0, v) :: tl)).1.counts k = _
    rw [ScalarMetricTracker.updateGo]
    cases hs1 : skipNonScalar v with
    | true =>
      simp only [hs1, if_true]
      exact ih st hrest
    | false =>
    cases hs2 : skipNan v with
    | true =>
      simp only [hs1, hs2, Bool.false_eq_true, if_false, if_true]
      exact ih st hrest
    | false =>
    have hk0 : k0 ≠ k := by
      intro he
      have hcontra := h (k0, v) (List.mem_cons_self _ _) he
      rw [hs1, hs2] at hcontra
      simp at hcontra
    cases hr : addRaises ((alistGet st.sums k0).getD (Metric.scalar (Val.num 0)))
        (ensure_detached v) with
    | true =>
      simp only [hs1, hs2, hr, Bool.false_eq_true, if_false, if_true]
      exact ⟨alistGet_ensure_ne st.sums _ hk0, trivial⟩
    | false =>
      simp only [hs1, hs2, hr, Bool.false_eq_true, if_false]
      obtain ⟨ih1, ih2⟩ := ih (applyEntry st k0 v) hrest
      exact ⟨ih1.trans (alistGet_update_ne st.sums _ _ hk0),
        ih2.trans (alistGet_update_ne st.counts _ _ hk0)⟩

/-- Claim C3, witness: the spec scenario — a batch mixing a scalar `loss`
with a 3-element tensor `acc` leaves `sums` and `counts` untouched at key
`acc` (here: still absent after the call). -/
theorem claim3_witness :
    alistGet (trackerInit.update [("loss", Metric.scalar (Val.num 2)),
        ("acc", Metric.tensor [Val.num 1, Val.num 2, Val.num 3] false Device.cpu)]).1.sums "acc"
      = alistGet trackerInit.sums "acc" ∧
    alistGet (trackerInit.update [("loss", Metric.scalar (Val.num 2)),
        ("acc", Metric.tensor [Val.num 1, Val.num 2, Val.num 3] false Device.cpu)]).1.counts "acc"
      = alistGet trackerInit.counts "acc" :=
  claim3_skipped_entries_frame trackerInit
    [("loss", Metric.scalar (Val.num 2)),
      ("acc", Metric.tensor [Val.num 1, Val.num 2, Val.num 3] false Device.cpu)] "acc"
    (by decide)

/-- Claim C4, counterexample: the conjunct "`get_metrics` cannot fail" is
false — in the reachable state produced by updating with a zero-element
tensor, `get_metrics()` raises while converting the accumulated sum to a
scalar (no division by zero is involved). -/
theorem claim4_counterexample :
    (trackerRun [TrackerCall.update [("a", Metric.tensor [] false Device.cpu)]]).get_metrics.1
      = none := by
  decide

/-- Claim C4, amended: in every state reachable by any sequence of `reset`,
`update` and `get_metrics` calls, every key present in `sums` is present in
`counts` with a non-zero count, so the division `sum / count` in
`get_metrics` never divides by zero; `get_metrics` can however still fail
when converting a zero-element tensor sum to a scalar. -/
theorem claim4_sums_counts_invariant (calls : List TrackerCall) (k : String)
    (h : (alistGet (trackerRun calls).sums k).isSome = true) :
    ∃ c, alistGet (trackerRun calls).counts k = some c ∧ c ≠ 0 :=
  trackerInv_run calls k h

/-- Claim C4, witness: after one tracked update for key `a`, the key is in
`sums` and has a non-zero count. -/
theorem claim4_witness :
    ∃ c, alistGet (trackerRun [TrackerCall.update [("a", Metric.scalar Val.nan)]]).counts "a"
      = some c ∧ c ≠ 0 :=
  claim4_sums_counts_invariant [TrackerCall.update [("a", Metric.scalar Val.nan)]] "a"
    (by decide)

/-- Claim C5: after `reset()` on a tracker in any state, both internal
mappings are empty and a subsequent `get_metrics()` returns the empty
mapping without touching the state.  (The Python method returns `None`; in
this state-passing embedding it is the state transformer alone.) -/
theorem claim5_reset (st : ScalarMetricTracker) :
    st.reset.sums = [] ∧ st.reset.counts = [] ∧
    st.reset.get_metrics.1 = some [] ∧ st.reset.get_metrics.2 = st.reset :=
  ⟨rfl, rfl, rfl, rfl⟩

/-- Claim C6: evaluation of the code at the failing input.  For a
one-element CUDA tensor with `requires_grad=True`, the value accumulated by
`update` is detached (the gradient flag is cleared) but is NOT moved to the
host: `ensure_detached` only calls `.detach()` — despite its own docstring
"Ensure that the tensor is detached and on the CPU" — so the running sum
still lives on `cuda:0`; the move to host happens only later, inside
`get_metrics` via `to_item`. -/
theorem claim6_device_not_moved :
    ensure_detached (Metric.tensor [Val.num 1] true (Device.cuda 0))
      = Metric.tensor [Val.num 1] false (Device.cuda 0) ∧
    deviceOf (ensure_detached (Metric.tensor [Val.num 1] true (Device.cuda 0)))
      = some (Device.cuda 0) ∧
    Device.cuda 0 ≠ Device.cpu ∧
    alistGet (trackerInit.update [("m", Metric.tensor [Val.num 1] true (Device.cuda 0))]).1.sums "m"
      = some (Metric.tensor [Val.num 1] false (Device.cuda 0)) ∧
    alistGet (trackerInit.update [("m", Metric.tensor [Val.num 1] true (Device.cuda 0))]).1.counts "m"
      = some 1 := by
  refine ⟨rfl, rfl, by decide, ?_, by decide⟩
  norm_num [ScalarMetricTracker.update, ScalarMetricTracker.updateGo, skipNonScalar, skipNan,
    addRaises, applyEntry, alistUpdate, alistGet, addMetric, ensure_detached, valAdd,
    trackerInit, valIsNan]

/-- Claim C7: `update` never raises on a mapping that mixes plain scalar
values with skipped (multi-element or NaN-containing) tensor values — every
skipped entry is passed over silently and the scalar entries only ever add a
scalar to the running sum, which cannot raise. -/
theorem claim7_update_no_raise (st : ScalarMetricTracker) (batch : List (String × Metric))
    (h : ∀ kv ∈ batch, (isPlainScalar kv.2 || skipNonScalar kv.2 || skipNan kv.2) = true) :
    (st.update batch).2 = false := by
  induction batch generalizing st with
  | nil => rfl
  | cons hd tl ih =>
    obtain ⟨k0, v⟩ := hd
    have hrest : ∀ kv ∈ tl, (isPlainScalar kv.2 || skipNonScalar kv.2 || skipNan kv.2) = true :=
      fun kv hkv => h kv (List.mem_cons_of_mem _ hkv)
    show (ScalarMetricTracker.updateGo st ((k0, v) :: tl)).2 = false
    rw [ScalarMetricTracker.updateGo]
    cases hs1 : skipNonScalar v with
    | true =>
      simp only [hs1, if_true]
      exact ih st hrest
    | false =>
    cases hs2 : skipNan v with
    | true =>
      simp only [hs1, hs2, Bool.false_eq_true, if_false, if_true]
      exact ih st hrest
    | false =>
    have hscal : isPlainScalar v = true := by
      have hin := h (k0, v) (List.mem_cons_self _ _)
      rw [hs1, hs2] at hin
      simpa using hin
    obtain ⟨a, rfl⟩ : ∃ a, v = Metric.scalar a := by
      cases v with
      | scalar a => exact ⟨a, rfl⟩
      | tensor es rg d => simp [isPlainScalar] at hscal
    rw [show ensure_detached (Metric.scalar a) = Metric.scalar a from rfl,
      addRaises_scalar_right]
    simp only [hs1, hs2, Bool.false_eq_true, if_false]
    exact ih (applyEntry st k0 (Metric.scalar a)) hrest

/-- Claim C7, witness: a batch mixing the scalar `loss` with the 3-element
tensor `acc` raises no exception. -/
theorem claim7_witness :
    (trackerInit.update [("loss", Metric.scalar (Val.num 2)),
        ("acc", Metric.tensor [Val.num 1, Val.num 2, Val.num 3] false Device.cpu)]).2 = false :=
  claim7_update_no_raise trackerInit
    [("loss", Metric.scalar (Val.num 2)),
      ("acc", Metric.tensor [Val.num 1, Val.num 2, Val.num 3] false Device.cpu)]
    (by decide)

/-- Claim C8: `get_metrics` is a read-only snapshot: in every state
reachable by a sequence of calls it leaves both internal mappings exactly
unchanged (the state after the call equals the state before it), so its
placement or repetition in a call sequence cannot alter any later result. -/
theorem claim8_get_metrics_readonly (calls : List TrackerCall) :
    (trackerRun calls).get_metrics.2 = trackerRun calls :=
  get_metrics_state_eq (trackerInv_run calls)

/-- Claim C9: a zero-element tensor value is NOT skipped — both skip tests
of `update` are false on it — so (whenever the accumulated slot for its key
is absent or a plain scalar, as on any tracker fed only scalars) the empty
tensor is added into `sums[k]`, `counts[k]` is incremented by one, and the
subsequent `get_metrics()` raises while converting the zero-element sum to
a scalar. -/
theorem claim9_empty_tensor_not_skipped (st : ScalarMetricTracker) (k : String)
    (rg : Bool) (d : Device)
    (h : sumSlotPlain (alistGet st.sums k) = true) :
    skipNonScalar (Metric.tensor [] rg d) = false ∧
    skipNan (Metric.tensor [] rg d) = false ∧
    alistGet (st.update [(k, Metric.tensor [] rg d)]).1.sums k
      = some (Metric.tensor [] false d) ∧
    alistGet (st.update [(k, Metric.tensor [] rg d)]).1.counts k
      = some ((alistGet st.counts k).getD 0 + 1) ∧
    (st.update [(k, Metric.tensor [] rg d)]).1.get_metrics.1 = none := by
  have hacc : ∃ a, (alistGet st.sums k).getD (Metric.scalar (Val.num 0)) = Metric.scalar a := by
    cases hg : alistGet st.sums k with
    | none => exact ⟨Val.num 0, rfl⟩
    | some m =>
      rw [hg] at h
      cases m with
      | scalar a => exact ⟨a, rfl⟩
      | tensor es rg0 d0 => simp [sumSlotPlain] at h
  obtain ⟨a, hacc⟩ := hacc
  have hupd : (st.update [(k, Metric.tensor [] rg d)]).1
      = applyEntry st k (Metric.tensor [] rg d) := by
    show (ScalarMetricTracker.updateGo st [(k, Metric.tensor [] rg d)]).1 = _
    rw [ScalarMetricTracker.updateGo]
    rw [show ensure_detached (Metric.tensor [] rg d) = Metric.tensor [] false d from rfl]
    rw [hacc, addRaises_scalar_left]
    rfl
  have hsums : alistGet (applyEntry st k (Metric.tensor [] rg d)).sums k
      = some (Metric.tensor [] false d) := by
    show alistGet (alistUpdate st.sums k _ _) k = _
    rw [alistGet_update_self, hacc]
    rfl
  have hcounts : alistGet (applyEntry st k (Metric.tensor [] rg d)).counts k
      = some ((alistGet st.counts k).getD 0 + 1) := by
    show alistGet (alistUpdate st.counts k _ _) k = _
    rw [alistGet_update_self]
  have hnone : (applyEntry st k (Metric.tensor [] rg d)).get_metrics.1 = none := by
    have hmem : ((k, Metric.tensor [] false d) : String × Metric)
        ∈ (applyEntry st k (Metric.tensor [] rg d)).sums :=
      mem_of_alistGet_eq_some hsums
    have hfst := getMetricsGo_fst_none_of_mem
      (applyEntry st k (Metric.tensor [] rg d)).sums
      (applyEntry st k (Metric.tensor [] rg d)).counts
      ⟨(k, Metric.tensor [] false d), hmem, rfl⟩
    rw [ScalarMetricTracker.get_metrics]
    cases hgm : getMetricsGo (applyEntry st k (Metric.tensor [] rg d)).sums
        (applyEntry st k (Metric.tensor [] rg d)).counts with
    | mk res cs =>
      rw [hgm] at hfst
      exact hfst
  exact ⟨rfl, rfl, hupd ▸ hsums, hupd ▸ hcounts, hupd ▸ hnone⟩

/-- Claim C9, witness: updating a fresh tracker with an empty CPU tensor
for key `a` stores the empty tensor, sets the count to one, and makes
`get_metrics()` raise. -/
theorem claim9_witness :
    skipNonScalar (Metric.tensor [] false Device.cpu) = false ∧
    skipNan (Metric.tensor [] false Device.cpu) = false ∧
    alistGet (trackerInit.update [("a", Metric.tensor [] false Device.cpu)]).1.sums "a"
      = some (Metric.tensor [] false Device.cpu) ∧
    alistGet (trackerInit.update [("a", Metric.tensor [] false Device.cpu)]).1.counts "a"
      = some ((alistGet trackerInit.counts "a").getD 0 + 1) ∧
    (trackerInit.update [("a", Metric.tensor [] false Device.cpu)]).1.get_metrics.1 = none :=
  claim9_empty_tensor_not_skipped trackerInit "a" false Device.cpu (by decide)

/-- Claim C10: `init_device` treats an explicit `device_id` of `0` exactly
like an omitted (`None`) one — the Python test `not device_id` is true for
both — so for each fixed CUDA-availability state `init_device(0)` and
`init_device(None)` return the same device, and when CUDA is unavailable
the result is the CPU device whatever the argument. -/
theorem claim10_init_device :
    (∀ cuda_available : Bool,
      init_device cuda_available (some 0) = init_device cuda_available none) ∧
    (∀ device_id : Option Nat, init_device false device_id = Device.cpu) := by
  constructor
  · intro cuda_available
    rfl
  · intro device_id
    rfl
